import Mathlib

/-!
Verification of the local cache and download-manifest helpers of the
WatchnLearn app (source file: the module holding `cache` and `downloads`).

Embedding choices:
* `AsyncStorage` is modelled as an association list from string keys to
  stored values.  The source stores JSON strings; since every stored string
  is `JSON.stringify` of a JSON-representable value and `JSON.parse` is a
  left inverse of `JSON.stringify` on such values, storage is modelled at
  the JSON-tree level (`Json` below) and the stringify/parse pair becomes
  the identity on trees.  Shape decoding (a parsed tree not having the
  expected record shape) is still modelled explicitly via the `decode*`
  functions, whose failure corresponds to a runtime error that the
  source's `try`/`catch` blocks swallow.
* The filesystem (`expo-file-system`) is modelled as a set of existing
  directory paths and file paths.  `documentDirectory` is an opaque
  platform string, modelled as a fixed constant.
* Timestamps (`Date.now()`) are integers of milliseconds, modelled as `Int`.
* Each operation also exists in a fallible variant (suffix `E`) in which
  every storage / filesystem / network primitive takes a Boolean failure
  flag; a raised failure is an `Except.error`, and a source `try`/`catch`
  block becomes a `match` that converts any error of the body into the
  `catch` branch's default result.  On the caught branch the model returns
  the pre-call state: the claims settled against these variants concern
  only whether an error propagates to the caller, not the partial effects
  of a failed call.
-/

namespace WatchnLearn

/-- JSON values: the serializable payloads the cache stores. -/
inductive Json where
  | null : Json
  | bool (b : Bool) : Json
  | num (n : Int) : Json
  | str (s : String) : Json
  | arr (elems : List Json) : Json
  | obj (fields : List (String × Json)) : Json

/-- The AsyncStorage key-value store: an association list (first binding wins). -/
abbrev Storage := List (String × Json)

/-- `AsyncStorage.getItem`: the value bound to `k`, or `none` when absent. -/
def getItem : Storage → String → Option Json
  | [], _ => none
  | (k', v) :: rest, k => if k' = k then some v else getItem rest k

/-- `AsyncStorage.removeItem`: drop every binding of `k`. -/
def removeItem : Storage → String → Storage
  | [], _ => []
  | (k', v) :: rest, k =>
      if k' = k then removeItem rest k else (k', v) :: removeItem rest k

/-- `AsyncStorage.setItem`: bind `k` to `v`, overwriting any prior binding. -/
def setItem (st : Storage) (k : String) (v : Json) : Storage :=
  (k, v) :: removeItem st k

/-- `AsyncStorage.getAllKeys`: every key currently bound. -/
def getAllKeys (st : Storage) : List String :=
  st.map (fun p => p.1)

/-- `AsyncStorage.multiRemove`: drop every binding whose key is in `ks`. -/
def multiRemove : Storage → List String → Storage
  | [], _ => []
  | (k', v) :: rest, ks =>
      if k' ∈ ks then multiRemove rest ks else (k', v) :: multiRemove rest ks

/-- JS `String.prototype.startsWith` (also `expo`'s path-containment test),
modelled over the character data so that it evaluates in the kernel. -/
def strStartsWith (s p : String) : Bool :=
  p.data.isPrefixOf s.data

/-! ### The expiring cache (`cache` in the source) -/

/-- `CACHE_PREFIX` in the source: the namespace of all cache keys. -/
def CACHE_NS : String := "@watchnlearn_cache_"

/-- `CACHE_EXPIRY` in the source: 24 hours in milliseconds. -/
def CACHE_EXPIRY : Int := 24 * 60 * 60 * 1000

/-- `JSON.stringify` of the `CacheItem<T>` object `\x7b data, timestamp \x7d`. -/
def encodeCacheItem (data : Json) (timestamp : Int) : Json :=
  Json.obj [("data", data), ("timestamp", Json.num timestamp)]

/-- `JSON.parse` of a stored cache entry, recovering `data` and `timestamp`;
fails (a runtime error in the source, caught by `cache.get`) on any other
shape. -/
def decodeCacheItem : Json → Option (Json × Int)
  | Json.obj [("data", d), ("timestamp", Json.num t)] => some (d, t)
  | _ => none

/-- `cache.set(key, data)` at time `now`. -/
def cacheSet (st : Storage) (now : Int) (key : String) (data : Json) : Storage :=
  setItem st (CACHE_NS ++ key) (encodeCacheItem data now)

/-- `cache.remove(key)`. -/
def cacheRemove (st : Storage) (key : String) : Storage :=
  removeItem st (CACHE_NS ++ key)

/-- `cache.get(key)` at time `now`: returns the updated storage and the
value (`none` = the source's `null`).  A missing entry, a decode failure
(caught exception), or an expired entry yields `none`; an expired entry is
removed via `this.remove(key)`. -/
def cacheGet (st : Storage) (now : Int) (key : String) : Storage × Option Json :=
  match getItem st (CACHE_NS ++ key) with
  | none => (st, none)
  | some j =>
      match decodeCacheItem j with
      | none => (st, none)
      | some (d, ts) =>
          if now - ts > CACHE_EXPIRY then (cacheRemove st key, none)
          else (st, some d)

/-- `cache.clear()`: remove every key that starts with the cache namespace. -/
def cacheClear (st : Storage) : Storage :=
  multiRemove st ((getAllKeys st).filter (fun k => strStartsWith k CACHE_NS))

/-! ### The download manifest (`downloads` in the source) -/

/-- The filesystem: the sets of directory paths and file paths that exist. -/
structure FS where
  dirs : List String
  files : List String

/-- `FileSystem.documentDirectory`: an opaque platform string, modelled as a
fixed constant. -/
def documentDirectory : String := "file:///data/app/files/"

/-- `DOWNLOADS_DIR` in the source. -/
def DOWNLOADS_DIR : String := documentDirectory ++ "downloads/"

/-- `DOWNLOADS_KEY` in the source: the AsyncStorage key of the manifest. -/
def DOWNLOADS_KEY : String := "@watchnlearn_downloads"

/-- `FileSystem.getInfoAsync(path).exists`. -/
def getInfo (fs : FS) (path : String) : Bool :=
  path ∈ fs.files ∨ path ∈ fs.dirs

/-- `FileSystem.makeDirectoryAsync(path)`. -/
def makeDirectory (fs : FS) (path : String) : FS :=
  { fs with dirs := path :: fs.dirs }

/-- `FileSystem.downloadAsync(url, localUri)`: fetches `url` to `localUri`
and resolves with that uri (happy path; the fallible variant below can fail). -/
def downloadAsync (fs : FS) (url localUri : String) : FS × String :=
  ({ fs with files := localUri :: fs.files }, localUri)

/-- `FileSystem.deleteAsync(path, \x7b idempotent: true \x7d)`: deleting a
directory also deletes everything under it. -/
def deleteAsync (fs : FS) (path : String) : FS :=
  if path ∈ fs.dirs then
    { dirs := fs.dirs.filter (fun d => ¬ d = path),
      files := fs.files.filter (fun f => ¬ strStartsWith f path = true) }
  else
    { fs with files := fs.files.filter (fun f => ¬ f = path) }

/-- The `type` field of a download record: `'video' | 'pdf'`. -/
inductive MediaType where
  | video : MediaType
  | pdf : MediaType
deriving DecidableEq

/-- The file extension `download` derives from the media type. -/
def extensionOf : MediaType → String
  | MediaType.video => ".mp4"
  | MediaType.pdf => ".pdf"

/-- A `DownloadRecord` of the manifest. -/
structure DownloadRecord where
  id : String
  name : String
  type : MediaType
  url : String
  localUri : String
  downloadedAt : Int
deriving DecidableEq

/-- `JSON.stringify` of one download record. -/
def encodeRecord (r : DownloadRecord) : Json :=
  Json.obj
    [("id", Json.str r.id), ("name", Json.str r.name),
     ("type", Json.str (match r.type with
       | MediaType.video => "video"
       | MediaType.pdf => "pdf")),
     ("url", Json.str r.url), ("localUri", Json.str r.localUri),
     ("downloadedAt", Json.num r.downloadedAt)]

/-- `JSON.stringify` of the whole manifest. -/
def encodeRecords (rs : List DownloadRecord) : Json :=
  Json.arr (rs.map encodeRecord)

/-- Shape decoding of one record tree. -/
def decodeRecord : Json → Option DownloadRecord
  | Json.obj
      [("id", Json.str i), ("name", Json.str n), ("type", Json.str t),
       ("url", Json.str u), ("localUri", Json.str lu),
       ("downloadedAt", Json.num d)] =>
      match t with
      | "video" => some ⟨i, n, MediaType.video, u, lu, d⟩
      | "pdf" => some ⟨i, n, MediaType.pdf, u, lu, d⟩
      | _ => none
  | _ => none

/-- Shape decoding of a list of record trees (all-or-nothing, like
`JSON.parse` of the serialized array). -/
def decodeRecordList : List Json → Option (List DownloadRecord)
  | [] => some []
  | j :: rest =>
      match decodeRecord j, decodeRecordList rest with
      | some r, some rs => some (r :: rs)
      | _, _ => none

/-- Shape decoding of the manifest tree. -/
def decodeRecords : Json → Option (List DownloadRecord)
  | Json.arr js => decodeRecordList js
  | _ => none

/-- `downloads.init()`: create the downloads directory if it is absent. -/
def dlInit (fs : FS) : FS :=
  if getInfo fs DOWNLOADS_DIR then fs else makeDirectory fs DOWNLOADS_DIR

/-- `downloads.getAllRecords()`: read and parse the manifest; a missing key
or decode failure (caught exception) yields `[]`. -/
def getAllRecords (st : Storage) : List DownloadRecord :=
  match getItem st DOWNLOADS_KEY with
  | none => []
  | some j => (decodeRecords j).getD []

/-- `downloads.saveAllRecords(records)`: rewrite the whole manifest. -/
def saveAllRecords (st : Storage) (rs : List DownloadRecord) : Storage :=
  setItem st DOWNLOADS_KEY (encodeRecords rs)

/-- The manifest update of `downloads.saveRecord`: replace the first record
with the same `id` (`findIndex` + assignment), else push at the end. -/
def upsert (rs : List DownloadRecord) (r : DownloadRecord) : List DownloadRecord :=
  match rs.findIdx? (fun x => x.id = r.id) with
  | some i => rs.set i r
  | none => rs ++ [r]

/-- `downloads.saveRecord(record)`. -/
def saveRecord (st : Storage) (r : DownloadRecord) : Storage :=
  saveAllRecords st (upsert (getAllRecords st) r)

/-- `downloads.getDownload(id)`: linear scan of the manifest. -/
def getDownload (st : Storage) (id : String) : Option DownloadRecord :=
  (getAllRecords st).find? (fun r => r.id = id)

/-- `downloads.isDownloaded(id)`: a record exists and its file exists. -/
def isDownloaded (st : Storage) (fs : FS) (id : String) : Bool :=
  match getDownload st id with
  | none => false
  | some r => getInfo fs r.localUri

/-- `downloads.download(id, name, url, type)` at time `now` (happy path):
init, fetch to the derived path, upsert the record, return the local uri. -/
def download (st : Storage) (fs : FS) (id nm url : String) (t : MediaType)
    (now : Int) : Storage × FS × Option String :=
  let fs1 := dlInit fs
  let localUri := DOWNLOADS_DIR ++ id ++ extensionOf t
  let res := downloadAsync fs1 url localUri
  let r : DownloadRecord := ⟨id, nm, t, url, res.2, now⟩
  (saveRecord st r, res.1, some res.2)

/-- `downloads.deleteDownload(id)`: no-op when no record exists; otherwise
delete the file, then rewrite the manifest without that id. -/
def deleteDownload (st : Storage) (fs : FS) (id : String) : Storage × FS :=
  match getDownload st id with
  | none => (st, fs)
  | some r =>
      let fs' := deleteAsync fs r.localUri
      let rs := (getAllRecords st).filter (fun x => ¬ x.id = id)
      (saveAllRecords st rs, fs')

/-- `downloads.clearAll()`: delete the downloads directory and the manifest
key, then re-init. -/
def clearAll (st : Storage) (fs : FS) : Storage × FS :=
  let fs1 := deleteAsync fs DOWNLOADS_DIR
  let st1 := removeItem st DOWNLOADS_KEY
  (st1, dlInit fs1)

/-! ### Fallible variants

Each primitive takes a Boolean failure flag (`true` = the underlying
storage / filesystem / network call raises).  A source `try \x7b ... \x7d
catch` becomes a `match` on the body's `Except` result whose error case
returns the `catch` branch's default. -/

/-- A primitive call that raises when its failure flag is set. -/
def orFail (fail : Bool) {α : Type} (a : α) : Except Unit α :=
  if fail then Except.error () else Except.ok a

/-- A source `try \x7b body \x7d catch \x7b return dflt \x7d` block: any
error of the body is swallowed and the default is returned. -/
def tryE {α : Type} (body : Except Unit α) (dflt : α) : Except Unit α :=
  match body with
  | Except.ok x => Except.ok x
  | Except.error _ => Except.ok dflt

/-- Is an `Except` result a normal return (no exception propagated)? -/
def isOkE {α : Type} : Except Unit α → Bool
  | Except.ok _ => true
  | Except.error _ => false

/-- `cache.set` with a fallible `setItem` call. -/
def cacheSetE (fSet : Bool) (st : Storage) (now : Int) (key : String)
    (d : Json) : Except Unit Storage :=
  tryE (orFail fSet (cacheSet st now key d)) st

/-- `cache.remove` with a fallible `removeItem` call. -/
def cacheRemoveE (fRem : Bool) (st : Storage) (key : String) :
    Except Unit Storage :=
  tryE (orFail fRem (cacheRemove st key)) st

/-- `cache.get` with fallible `getItem` and (inside `this.remove`)
`removeItem` calls; a decode failure raises inside the `try` body. -/
def cacheGetE (fGet fRem : Bool) (st : Storage) (now : Int) (key : String) :
    Except Unit (Storage × Option Json) :=
  tryE (do
    let cached ← orFail fGet (getItem st (CACHE_NS ++ key))
    match cached with
    | none => pure (st, none)
    | some j =>
        match decodeCacheItem j with
        | none => Except.error ()
        | some (d, ts) =>
            if now - ts > CACHE_EXPIRY then do
              let st' ← cacheRemoveE fRem st key
              pure (st', none)
            else pure (st, some d))
    (st, none)

/-- `cache.clear` with fallible `getAllKeys` and `multiRemove` calls. -/
def cacheClearE (fKeys fMulti : Bool) (st : Storage) : Except Unit Storage :=
  tryE (do
    let keys ← orFail fKeys (getAllKeys st)
    orFail fMulti (multiRemove st (keys.filter (fun k => strStartsWith k CACHE_NS))))
    st

/-- `downloads.init` with fallible `getInfoAsync` and `makeDirectoryAsync`. -/
def dlInitE (fInfo fMk : Bool) (fs : FS) : Except Unit FS :=
  tryE (do
    let ex ← orFail fInfo (getInfo fs DOWNLOADS_DIR)
    if ex then pure fs
    else orFail fMk (makeDirectory fs DOWNLOADS_DIR))
    fs

/-- `downloads.getAllRecords` with a fallible `getItem`; a parse failure
raises inside the `try` body. -/
def getAllRecordsE (fGet : Bool) (st : Storage) :
    Except Unit (List DownloadRecord) :=
  tryE (do
    let data ← orFail fGet (getItem st DOWNLOADS_KEY)
    match data with
    | none => pure []
    | some j =>
        match decodeRecords j with
        | none => Except.error ()
        | some rs => pure rs)
    []

/-- `downloads.saveAllRecords` with a fallible `setItem`. -/
def saveAllRecordsE (fSet : Bool) (st : Storage) (rs : List DownloadRecord) :
    Except Unit Storage :=
  tryE (orFail fSet (saveAllRecords st rs)) st

/-- `downloads.saveRecord`: calls `getAllRecords` (which guards itself) and
a fallible `setItem` via `saveAllRecords`, all inside its own `try`. -/
def saveRecordE (fGet fSet : Bool) (st : Storage) (r : DownloadRecord) :
    Except Unit Storage :=
  tryE (do
    let rs ← getAllRecordsE fGet st
    saveAllRecordsE fSet st (upsert rs r))
    st

/-- `downloads.getDownload`: scans the records inside its own `try`. -/
def getDownloadE (fGet : Bool) (st : Storage) (id : String) :
    Except Unit (Option DownloadRecord) :=
  tryE (do
    let rs ← getAllRecordsE fGet st
    pure (rs.find? (fun r => r.id = id)))
    none

/-- `downloads.isDownloaded`: the source has NO `try`/`catch` here; the
`getInfoAsync` call on the record's uri is unguarded, so its failure
propagates to the caller. -/
def isDownloadedE (fGet fInfo : Bool) (st : Storage) (fs : FS) (id : String) :
    Except Unit Bool := do
  let record ← getDownloadE fGet st id
  match record with
  | none => pure false
  | some r => orFail fInfo (getInfo fs r.localUri)

/-- `downloads.download` with fallible primitives throughout, inside one
`try` whose `catch` returns `null`. -/
def downloadE (fInfo fMk fDl fGet fSet : Bool) (st : Storage) (fs : FS)
    (id nm url : String) (t : MediaType) (now : Int) :
    Except Unit (Storage × FS × Option String) :=
  tryE (do
    let fs1 ← dlInitE fInfo fMk fs
    let localUri := DOWNLOADS_DIR ++ id ++ extensionOf t
    let res ← orFail fDl (downloadAsync fs1 url localUri)
    let r : DownloadRecord := ⟨id, nm, t, url, res.2, now⟩
    let st' ← saveRecordE fGet fSet st r
    pure (st', res.1, some res.2))
    (st, fs, none)

/-- `downloads.deleteDownload` with fallible primitives, inside one `try`
whose `catch` returns with no result. -/
def deleteDownloadE (fGet fDel fGet2 fSet : Bool) (st : Storage) (fs : FS)
    (id : String) : Except Unit (Storage × FS) :=
  tryE (do
    let record ← getDownloadE fGet st id
    match record with
    | none => pure (st, fs)
    | some r => do
        let fs' ← orFail fDel (deleteAsync fs r.localUri)
        let rs ← getAllRecordsE fGet2 st
        let st' ← saveAllRecordsE fSet st (rs.filter (fun x => ¬ x.id = id))
        pure (st', fs'))
    (st, fs)

/-- `downloads.clearAll` with fallible primitives, inside one `try`. -/
def clearAllE (fDel fRem fInfo fMk : Bool) (st : Storage) (fs : FS) :
    Except Unit (Storage × FS) :=
  tryE (do
    let fs1 ← orFail fDel (deleteAsync fs DOWNLOADS_DIR)
    let st1 ← orFail fRem (removeItem st DOWNLOADS_KEY)
    let fs2 ← dlInitE fInfo fMk fs1
    pure (st1, fs2))
    (st, fs)

/-! ### Storage lemmas -/

theorem getItem_setItem_self (st : Storage) (k : String) (v : Json) :
    getItem (setItem st k v) k = some v := by
  simp [setItem, getItem]

theorem getItem_removeItem_self (st : Storage) (k : String) :
    getItem (removeItem st k) k = none := by
  induction st with
  | nil => rfl
  | cons p rest ih =>
      obtain ⟨a, v⟩ := p
      by_cases hak : a = k
      · simpa [removeItem, hak] using ih
      · simp [removeItem, getItem, hak, ih]

theorem getItem_removeItem_ne (st : Storage) (k k' : String) (h : k' ≠ k) :
    getItem (removeItem st k) k' = getItem st k' := by
  induction st with
  | nil => rfl
  | cons p rest ih =>
      obtain ⟨a, v⟩ := p
      by_cases hak : a = k
      · subst hak
        simp [removeItem, getItem, Ne.symm h, ih]
      · by_cases hak' : a = k'
        · simp [removeItem, getItem, hak, hak', h]
        · simp [removeItem, getItem, hak, hak', ih]

theorem getItem_multiRemove (st : Storage) (ks : List String) (k : String) :
    getItem (multiRemove st ks) k = if k ∈ ks then none else getItem st k := by
  induction st with
  | nil => simp [multiRemove, getItem]
  | cons p rest ih =>
      obtain ⟨a, v⟩ := p
      by_cases hmem : a ∈ ks
      · by_cases hak : a = k
        · subst hak
          simp [multiRemove, hmem, ih]
        · simp [multiRemove, getItem, hmem, hak, ih]
      · by_cases hak : a = k
        · subst hak
          simp [multiRemove, getItem, hmem]
        · simp [multiRemove, getItem, hmem, hak, ih]

theorem getItem_eq_none_of_not_mem_keys (st : Storage) (k : String)
    (h : k ∉ getAllKeys st) : getItem st k = none := by
  induction st with
  | nil => rfl
  | cons p rest ih =>
      obtain ⟨a, v⟩ := p
      simp only [getAllKeys, List.map_cons, List.mem_cons, not_or] at h
      have hak : a ≠ k := fun hh => h.1 (hh.symm)
      simpa [getItem, hak] using ih h.2

theorem decodeCacheItem_encodeCacheItem (d : Json) (t : Int) :
    decodeCacheItem (encodeCacheItem d t) = some (d, t) := rfl

/-! ### Cache claims -/

/-- Claim C1: for every key and serializable value, `cache.set(key, value)`
followed by `cache.get(key)` within the TTL window returns exactly the
stored value (round-trip through JSON serialization and the store). -/
theorem cache_set_get_roundtrip (st : Storage) (tSet tGet : Int)
    (key : String) (d : Json) (h : tGet - tSet ≤ CACHE_EXPIRY) :
    (cacheGet (cacheSet st tSet key d) tGet key).2 = some d := by
  have hlt : ¬ tGet - tSet > CACHE_EXPIRY := not_lt.mpr h
  simp [cacheGet, cacheSet, getItem_setItem_self, decodeCacheItem,
    encodeCacheItem, hlt]

/-- Witness for C1 at a concrete input. -/
theorem cache_set_get_roundtrip_witness :
    (0 : Int) - 0 ≤ CACHE_EXPIRY ∧
    (cacheGet (cacheSet [] 0 "topics_abc" (Json.str "t1")) 0 "topics_abc").2
      = some (Json.str "t1") :=
  ⟨by decide, cache_set_get_roundtrip [] 0 0 "topics_abc" (Json.str "t1") (by decide)⟩

/-- Claim C2: once the elapsed time strictly exceeds the TTL, `cache.get`
returns absent, purges the entry from storage, and every subsequent
`cache.get` of that key (at any time) is also absent. -/
theorem cache_get_expired_purges (st : Storage) (key : String) (d : Json)
    (tSet tGet : Int) (h : tGet - tSet > CACHE_EXPIRY) :
    (cacheGet (cacheSet st tSet key d) tGet key).2 = none ∧
    getItem (cacheGet (cacheSet st tSet key d) tGet key).1 (CACHE_NS ++ key) = none ∧
    ∀ tGet2 : Int,
      (cacheGet (cacheGet (cacheSet st tSet key d) tGet key).1 tGet2 key).2 = none := by
  have hstep : cacheGet (cacheSet st tSet key d) tGet key
      = (cacheRemove (cacheSet st tSet key d) key, none) := by
    simp [cacheGet, getItem_setItem_self, cacheSet, decodeCacheItem,
      encodeCacheItem, h]
  refine ⟨by rw [hstep], ?_, ?_⟩
  · rw [hstep]
    exact getItem_removeItem_self _ _
  · intro tGet2
    rw [hstep]
    simp [cacheGet, cacheRemove, getItem_removeItem_self]

/-- Witness for C2 at a concrete input (25 hours elapsed, then a re-read). -/
theorem cache_get_expired_purges_witness :
    (90000000 : Int) - 0 > CACHE_EXPIRY ∧
    (cacheGet (cacheSet [] 0 "topics_abc" Json.null) 90000000 "topics_abc").2 = none ∧
    getItem (cacheGet (cacheSet [] 0 "topics_abc" Json.null) 90000000 "topics_abc").1
      (CACHE_NS ++ "topics_abc") = none ∧
    (cacheGet (cacheGet (cacheSet [] 0 "topics_abc" Json.null) 90000000 "topics_abc").1
      0 "topics_abc").2 = none :=
  ⟨by decide,
   (cache_get_expired_purges [] "topics_abc" Json.null 0 90000000 (by decide)).1,
   (cache_get_expired_purges [] "topics_abc" Json.null 0 90000000 (by decide)).2.1,
   (cache_get_expired_purges [] "topics_abc" Json.null 0 90000000 (by decide)).2.2 0⟩

/-- Claim C8: `cache.get(key)` after `cache.remove(key)` (with no
intervening set of that key) returns absent. -/
theorem cache_get_after_remove (st : Storage) (key : String) (now : Int) :
    (cacheGet (cacheRemove st key) now key).2 = none := by
  simp [cacheGet, cacheRemove, getItem_removeItem_self]

/-- Claim C10: the TTL comparison is strict: at elapsed time exactly equal
to the TTL the value is still returned and the entry is not purged (the
whole state is unchanged); at one millisecond more, the read is absent. -/
theorem cache_ttl_boundary_strict (st : Storage) (key : String) (d : Json)
    (tSet : Int) :
    cacheGet (cacheSet st tSet key d) (tSet + CACHE_EXPIRY) key
      = (cacheSet st tSet key d, some d) ∧
    (cacheGet (cacheSet st tSet key d) (tSet + CACHE_EXPIRY + 1) key).2 = none := by
  constructor
  · have hlt : ¬ tSet + CACHE_EXPIRY - tSet > CACHE_EXPIRY := by omega
    simp [cacheGet, getItem_setItem_self, cacheSet, decodeCacheItem,
      encodeCacheItem, hlt]
  · have hgt : tSet + CACHE_EXPIRY + 1 - tSet > CACHE_EXPIRY := by omega
    simp [cacheGet, getItem_setItem_self, cacheSet, decodeCacheItem,
      encodeCacheItem, hgt]

/-- Claim C7: `cache.clear()` removes exactly the storage entries whose key
starts with the cache namespace, leaving all other entries unchanged. -/
theorem cacheClear_frame (st : Storage) (k : String) :
    (strStartsWith k CACHE_NS = true → getItem (cacheClear st) k = none) ∧
    (strStartsWith k CACHE_NS = false → getItem (cacheClear st) k = getItem st k) := by
  constructor
  · intro hpre
    rw [cacheClear, getItem_multiRemove]
    by_cases hm : k ∈ (getAllKeys st).filter (fun k => strStartsWith k CACHE_NS)
    · simp [hm]
    · have hk : k ∉ getAllKeys st := by
        intro hks
        exact hm (List.mem_filter.mpr ⟨hks, hpre⟩)
      simp [hm, getItem_eq_none_of_not_mem_keys st k hk]
  · intro hpre
    rw [cacheClear, getItem_multiRemove]
    have hm : k ∉ (getAllKeys st).filter (fun k => strStartsWith k CACHE_NS) := by
      intro hce
      have hh := (List.mem_filter.mp hce).2
      rw [hpre] at hh
      exact Bool.false_ne_true hh
    simp [hm]

/-- Witness for C7 at a concrete two-entry storage. -/
theorem cacheClear_frame_witness :
    getItem (cacheClear [("@watchnlearn_cache_a", Json.null), ("other", Json.bool true)])
      "@watchnlearn_cache_a" = none ∧
    getItem (cacheClear [("@watchnlearn_cache_a", Json.null), ("other", Json.bool true)])
      "other"
      = getItem [("@watchnlearn_cache_a", Json.null), ("other", Json.bool true)] "other" :=
  ⟨(cacheClear_frame [("@watchnlearn_cache_a", Json.null), ("other", Json.bool true)]
      "@watchnlearn_cache_a").1 (by decide),
   (cacheClear_frame [("@watchnlearn_cache_a", Json.null), ("other", Json.bool true)]
      "other").2 (by decide)⟩

/-! ### Manifest lemmas -/

theorem decodeRecord_encodeRecord (r : DownloadRecord) :
    decodeRecord (encodeRecord r) = some r := by
  obtain ⟨i, n, t, u, lu, d⟩ := r
  cases t <;> rfl

theorem decodeRecords_encodeRecords (rs : List DownloadRecord) :
    decodeRecords (encodeRecords rs) = some rs := by
  induction rs with
  | nil => rfl
  | cons r rest ih =>
      simp only [encodeRecords, List.map_cons, decodeRecords, decodeRecordList,
        decodeRecord_encodeRecord] at ih ⊢
      simp [ih]

theorem getAllRecords_saveAllRecords (st : Storage) (rs : List DownloadRecord) :
    getAllRecords (saveAllRecords st rs) = rs := by
  simp [getAllRecords, saveAllRecords, getItem_setItem_self,
    decodeRecords_encodeRecords]

theorem upsert_cons (x : DownloadRecord) (xs : List DownloadRecord)
    (r : DownloadRecord) :
    upsert (x :: xs) r = if x.id = r.id then r :: xs else x :: upsert xs r := by
  by_cases h : x.id = r.id
  · simp [upsert, List.findIdx?_cons, h]
  · simp only [upsert, List.findIdx?_cons, List.findIdx?_succ, h,
      decide_False, if_neg, ite_false, if_false]
    rw [if_neg (by simp [h])]
    cases hfind : List.findIdx? (fun y => y.id = r.id) xs with
    | none => simp [hfind, h]
    | some i => simp [hfind, h, List.set_cons_succ]

theorem upsert_ids_subset (rs : List DownloadRecord) (r : DownloadRecord) :
    ∀ y ∈ (upsert rs r).map (fun x => x.id),
      y = r.id ∨ y ∈ rs.map (fun x => x.id) := by
  induction rs with
  | nil =>
      intro y hy
      simp [upsert] at hy
      exact Or.inl hy
  | cons x xs ih =>
      intro y hy
      rw [upsert_cons] at hy
      by_cases h : x.id = r.id
      · rw [if_pos h] at hy
        simp only [List.map_cons, List.mem_cons] at hy
        rcases hy with h1 | h1
        · exact Or.inl h1
        · exact Or.inr (by simp [h1])
      · rw [if_neg h] at hy
        simp only [List.map_cons, List.mem_cons] at hy
        rcases hy with h1 | h1
        · exact Or.inr (by simp [h1])
        · rcases ih y h1 with h2 | h2
          · exact Or.inl h2
          · exact Or.inr (by simp [h2])

theorem upsert_ids_nodup (rs : List DownloadRecord) (r : DownloadRecord)
    (h : (rs.map (fun x => x.id)).Nodup) :
    ((upsert rs r).map (fun x => x.id)).Nodup := by
  induction rs with
  | nil => simp [upsert]
  | cons x xs ih =>
      rw [List.map_cons, List.nodup_cons] at h
      rw [upsert_cons]
      by_cases hid : x.id = r.id
      · rw [if_pos hid]
        rw [List.map_cons, List.nodup_cons]
        exact ⟨hid ▸ h.1, h.2⟩
      · rw [if_neg hid]
        rw [List.map_cons, List.nodup_cons]
        refine ⟨?_, ih h.2⟩
        intro hmem
        rcases upsert_ids_subset xs r x.id hmem with h1 | h1
        · exact hid h1
        · exact h.1 h1

theorem countP_id_upsert (rs : List DownloadRecord) (r : DownloadRecord)
    (h : (rs.map (fun x => x.id)).Nodup) :
    (upsert rs r).countP (fun x => x.id = r.id) = 1 := by
  induction rs with
  | nil => simp [upsert]
  | cons x xs ih =>
      rw [List.map_cons, List.nodup_cons] at h
      rw [upsert_cons]
      by_cases hid : x.id = r.id
      · rw [if_pos hid, List.countP_cons]
        have hzero : xs.countP (fun x => x.id = r.id) = 0 := by
          rw [List.countP_eq_zero]
          intro a ha
          simp only [decide_eq_true_eq]
          intro haid
          exact h.1 (by
            rw [hid]
            rw [← haid] at *
            exact List.mem_map.mpr ⟨a, ha, rfl⟩)
        simp [hzero]
      · rw [if_neg hid, List.countP_cons, ih h.2]
        simp [hid]

theorem find?_id_upsert (rs : List DownloadRecord) (r : DownloadRecord) :
    (upsert rs r).find? (fun x => x.id = r.id) = some r := by
  induction rs with
  | nil => simp [upsert, List.find?]
  | cons x xs ih =>
      rw [upsert_cons]
      by_cases hid : x.id = r.id
      · rw [if_pos hid]
        simp [List.find?_cons]
      · rw [if_neg hid]
        simp [List.find?_cons, hid, ih]

theorem find?_id_filter_ne (rs : List DownloadRecord) (id : String) :
    (rs.filter (fun x => ¬ x.id = id)).find? (fun x => x.id = id) = none := by
  rw [List.find?_eq_none]
  intro x hx
  have hne := (List.mem_filter.mp hx).2
  simp only [decide_eq_true_eq] at hne ⊢
  simpa using hne

/-! ### Download-manifest claims -/

/-- The manifest invariant: at most one record per id. -/
def ManifestInv (st : Storage) : Prop :=
  ((getAllRecords st).map (fun r => r.id)).Nodup

theorem getAllRecords_saveRecord (st : Storage) (r : DownloadRecord) :
    getAllRecords (saveRecord st r) = upsert (getAllRecords st) r := by
  simp [saveRecord, getAllRecords_saveAllRecords]

theorem download_storage (st : Storage) (fs : FS) (id nm url : String)
    (t : MediaType) (now : Int) :
    (download st fs id nm url t now).1 =
      saveRecord st ⟨id, nm, t, url, DOWNLOADS_DIR ++ id ++ extensionOf t, now⟩ := by
  simp [download, downloadAsync]

/-- Claim C3: the manifest holds at most one record per id: each mutating
operation preserves the at-most-one-per-id invariant, and downloading the
same id twice leaves exactly one record for that id (replace, not append). -/
theorem manifest_at_most_one_per_id :
    (∀ st r, ManifestInv st → ManifestInv (saveRecord st r)) ∧
    (∀ st fs id nm url t now, ManifestInv st →
      ManifestInv (download st fs id nm url t now).1) ∧
    (∀ st fs id, ManifestInv st → ManifestInv (deleteDownload st fs id).1) ∧
    (∀ st fs, ManifestInv (clearAll st fs).1) ∧
    (∀ st fs fs' id nm nm' url url' t t' now now', ManifestInv st →
      ((getAllRecords
          (download (download st fs id nm url t now).1 fs' id nm' url' t' now').1).countP
        (fun r => r.id = id)) = 1) := by
  have hsave : ∀ st r, ManifestInv st → ManifestInv (saveRecord st r) := by
    intro st r h
    rw [ManifestInv, getAllRecords_saveRecord]
    exact upsert_ids_nodup _ _ h
  have hdl : ∀ st fs id nm url t now, ManifestInv st →
      ManifestInv (download st fs id nm url t now).1 := by
    intro st fs id nm url t now h
    rw [download_storage]
    exact hsave _ _ h
  refine ⟨hsave, hdl, ?_, ?_, ?_⟩
  · intro st fs id h
    cases hget : getDownload st id with
    | none => simpa [deleteDownload, hget] using h
    | some r =>
        rw [ManifestInv]
        simp only [deleteDownload, hget, getAllRecords_saveAllRecords]
        exact ((List.filter_sublist _).map _).nodup h
  · intro st fs
    rw [ManifestInv]
    have : getAllRecords (clearAll st fs).1 = [] := by
      simp [clearAll, getAllRecords, getItem_removeItem_self]
    simp [this]
  · intro st fs fs' id nm nm' url url' t t' now now' h
    rw [download_storage, download_storage, getAllRecords_saveRecord]
    have h1 : ManifestInv (download st fs id nm url t now).1 := hdl _ _ _ _ _ _ _ h
    rw [download_storage] at h1
    exact countP_id_upsert _
      ⟨id, nm', t', url', DOWNLOADS_DIR ++ id ++ extensionOf t', now'⟩ h1

/-- Witness for C3: two downloads of id `t1` from the empty store leave
exactly one manifest record for `t1`. -/
theorem manifest_at_most_one_per_id_witness :
    ManifestInv ([] : Storage) ∧
    ((getAllRecords
        (download (download [] ⟨[], []⟩ "t1" "n" "u" MediaType.video 0).1
          ⟨[], []⟩ "t1" "n2" "u2" MediaType.pdf 5).1).countP
      (fun r => r.id = "t1")) = 1 :=
  ⟨List.Pairwise.nil,
   manifest_at_most_one_per_id.2.2.2.2 [] ⟨[], []⟩ ⟨[], []⟩ "t1" "n" "n2" "u" "u2"
     MediaType.video MediaType.pdf 0 5 List.Pairwise.nil⟩

/-- Claim C4: a (successful) `download(id, ...)` followed by
`isDownloaded(id)` returns true, and `deleteDownload(id)` followed by
`isDownloaded(id)` returns false, from any starting state. -/
theorem download_delete_isDownloaded (st : Storage) (fs : FS)
    (id nm url : String) (t : MediaType) (now : Int) :
    isDownloaded (download st fs id nm url t now).1
      (download st fs id nm url t now).2.1 id = true ∧
    isDownloaded (deleteDownload st fs id).1 (deleteDownload st fs id).2 id
      = false := by
  constructor
  · have hfind :
        getDownload (download st fs id nm url t now).1 id
          = some ⟨id, nm, t, url, DOWNLOADS_DIR ++ id ++ extensionOf t, now⟩ := by
      rw [getDownload, download_storage, getAllRecords_saveRecord]
      exact find?_id_upsert (getAllRecords st)
        ⟨id, nm, t, url, DOWNLOADS_DIR ++ id ++ extensionOf t, now⟩
    rw [isDownloaded, hfind]
    have hfs : (download st fs id nm url t now).2.1
        = { dlInit fs with
            files := (DOWNLOADS_DIR ++ id ++ extensionOf t) :: (dlInit fs).files } := by
      simp [download, downloadAsync]
    rw [hfs]
    simp [getInfo]
  · cases hget : getDownload st id with
    | none => simp [isDownloaded, deleteDownload, hget]
    | some r =>
        have hnone :
            getDownload (deleteDownload st fs id).1 id = none := by
          rw [getDownload]
          simp only [deleteDownload, hget, getAllRecords_saveAllRecords]
          exact find?_id_filter_ne _ _
        rw [isDownloaded, hnone]

/-- Claim C6: with a manifest record present, `isDownloaded(id)` equals the
existence of the file at the record's local path (so it is false when the
file was externally removed), and `isDownloaded` is true only when both the
record and the file exist. -/
theorem isDownloaded_drift (st : Storage) (fs : FS) (id : String) :
    (∀ r, getDownload st id = some r →
      isDownloaded st fs id = getInfo fs r.localUri) ∧
    (isDownloaded st fs id = true →
      ∃ r, getDownload st id = some r ∧ getInfo fs r.localUri = true) := by
  constructor
  · intro r hr
    rw [isDownloaded, hr]
  · intro h
    cases hget : getDownload st id with
    | none => rw [isDownloaded, hget] at h; exact absurd h (by simp)
    | some r =>
        refine ⟨r, rfl, ?_⟩
        rw [isDownloaded, hget] at h
        exact h

/-- Witness for C6: a manifest with one record whose file is absent from
the filesystem: `isDownloaded` computes to the (false) file-existence test. -/
theorem isDownloaded_drift_witness :
    getDownload (saveAllRecords []
        [⟨"t1", "n", MediaType.video, "u", "file:///x.mp4", 0⟩]) "t1"
      = some ⟨"t1", "n", MediaType.video, "u", "file:///x.mp4", 0⟩ ∧
    isDownloaded (saveAllRecords []
        [⟨"t1", "n", MediaType.video, "u", "file:///x.mp4", 0⟩]) ⟨[], []⟩ "t1"
      = getInfo ⟨[], []⟩ "file:///x.mp4" :=
  ⟨by decide,
   (isDownloaded_drift (saveAllRecords []
        [⟨"t1", "n", MediaType.video, "u", "file:///x.mp4", 0⟩]) ⟨[], []⟩ "t1").1
     ⟨"t1", "n", MediaType.video, "u", "file:///x.mp4", 0⟩ (by decide)⟩

/-- Claim C9: `deleteDownload(id)` with no manifest record for `id` is a
no-op: the storage and the filesystem are returned unchanged. -/
theorem deleteDownload_noop (st : Storage) (fs : FS) (id : String)
    (h : getDownload st id = none) :
    deleteDownload st fs id = (st, fs) := by
  simp [deleteDownload, h]

/-- Witness for C9 at the empty store. -/
theorem deleteDownload_noop_witness :
    getDownload ([] : Storage) "t1" = none ∧
    deleteDownload [] ⟨["d"], ["f"]⟩ "t1" = ([], ⟨["d"], ["f"]⟩) :=
  ⟨by decide, deleteDownload_noop [] ⟨["d"], ["f"]⟩ "t1" (by decide)⟩

/-! ### Error-handling claims -/

theorem isOkE_tryE {α : Type} (body : Except Unit α) (dflt : α) :
    isOkE (tryE body dflt) = true := by
  cases body <;> rfl

theorem exists_ok_of_isOkE {α : Type} (e : Except Unit α)
    (h : isOkE e = true) : ∃ v, e = Except.ok v := by
  cases e with
  | ok v => exact ⟨v, rfl⟩
  | error u => simp [isOkE] at h

/-- Counterexample to claim C5: `downloads.isDownloaded` has no
`try`/`catch`; when the manifest holds a record for the id and the
file-existence check (`FileSystem.getInfoAsync`) fails, the failure
propagates to the caller instead of being swallowed into a safe default. -/
theorem isDownloaded_error_propagates :
    isDownloadedE false true
      (saveAllRecords [] [⟨"t1", "n", MediaType.video, "u", "file:///x.mp4", 0⟩])
      ⟨[], []⟩ "t1" = Except.error () := rfl

/-- Claim C5 (amended): every cache and download-manifest operation
swallows every internal failure and returns a safe default — except
`downloads.isDownloaded`, which guards only its manifest read (via
`getDownload`); a failure of its unguarded file-existence check
propagates.  All other operations, and `isDownloaded` whenever the
file-existence check itself does not fail, never propagate an error. -/
theorem failures_swallowed_except_isDownloaded_file_check :
    (∀ f st now key d, isOkE (cacheSetE f st now key d) = true) ∧
    (∀ f st key, isOkE (cacheRemoveE f st key) = true) ∧
    (∀ f1 f2 st now key, isOkE (cacheGetE f1 f2 st now key) = true) ∧
    (∀ f1 f2 st, isOkE (cacheClearE f1 f2 st) = true) ∧
    (∀ f1 f2 fs, isOkE (dlInitE f1 f2 fs) = true) ∧
    (∀ f st, isOkE (getAllRecordsE f st) = true) ∧
    (∀ f st rs, isOkE (saveAllRecordsE f st rs) = true) ∧
    (∀ f1 f2 st r, isOkE (saveRecordE f1 f2 st r) = true) ∧
    (∀ f st id, isOkE (getDownloadE f st id) = true) ∧
    (∀ f1 f2 f3 f4 f5 st fs id nm url t now,
      isOkE (downloadE f1 f2 f3 f4 f5 st fs id nm url t now) = true) ∧
    (∀ f1 f2 f3 f4 st fs id,
      isOkE (deleteDownloadE f1 f2 f3 f4 st fs id) = true) ∧
    (∀ f1 f2 f3 f4 st fs, isOkE (clearAllE f1 f2 f3 f4 st fs) = true) ∧
    (∀ f st fs id, isOkE (isDownloadedE f false st fs id) = true) := by
  refine ⟨fun f st now key d => isOkE_tryE _ _,
    fun f st key => isOkE_tryE _ _,
    fun f1 f2 st now key => isOkE_tryE _ _,
    fun f1 f2 st => isOkE_tryE _ _,
    fun f1 f2 fs => isOkE_tryE _ _,
    fun f st => isOkE_tryE _ _,
    fun f st rs => isOkE_tryE _ _,
    fun f1 f2 st r => isOkE_tryE _ _,
    fun f st id => isOkE_tryE _ _,
    fun f1 f2 f3 f4 f5 st fs id nm url t now => isOkE_tryE _ _,
    fun f1 f2 f3 f4 st fs id => isOkE_tryE _ _,
    fun f1 f2 f3 f4 st fs => isOkE_tryE _ _,
    ?_⟩
  intro f st fs id
  obtain ⟨v, hv⟩ := exists_ok_of_isOkE (getDownloadE f st id) (isOkE_tryE _ _)
  unfold isDownloadedE
  rw [hv]
  cases v with
  | none => rfl
  | some r => rfl

end WatchnLearn
